import Mathlib

/-!
Verification of the FutureNCCL / ProcessGroupNCCL interface
(torch/lib/c10d/ProcessGroupNCCL.hpp).

The shallow embedding models:
  * `at::IValue` as `Option Nat` (`none` is the None IValue);
  * CUDA event query results as `CudaError`;
  * the device as a small-step machine `Sys`: each CUDA stream is a FIFO
    queue of commands (`waitEvent` / `run` / `record`); a `record`
    satisfies ("fires") its event, and a `waitEvent` at the head of a
    queue may execute only once its event has fired.  Host-side calls
    (`wait`, `addCallbackWithStream`, `then`) enqueue commands and return
    immediately; TORCH_INTERNAL_ASSERT / C10_THROW_ERROR failures are
    modelled as `Except.error`.
-/

namespace C10d

/-- Model of `at::IValue`: `none` is the default (None) IValue. -/
abbrev IValue := Option Nat

/-- Model of a cudaError_t returned by `cudaEventQuery`. -/
inductive CudaError where
  | success
  | notReady
  | other (code : Nat)
deriving DecidableEq

/-- A command sitting in a CUDA stream's queue.
`waitEvent e` is `CUDAEvent::block` (cudaStreamWaitEvent),
`run k` is the device work issued by callback number `k`,
`record e` is `CUDAEvent::record`. -/
inductive Cmd where
  | waitEvent (e : Nat)
  | run (k : Nat)
  | record (e : Nat)
deriving DecidableEq

/-- Device-side state: per-stream command queues (indexed by stream id),
the set of events that have fired, the next fresh event id, and the
current stream of each device index (`getCurrentCUDAStream`). -/
structure Sys where
  queues : List (List Cmd)
  fired : List Nat
  nextEvent : Nat
  current : Nat → Nat

/-- Append a command at the tail of stream `i`'s queue. -/
def Sys.enqueue (s : Sys) (i : Nat) (c : Cmd) : Sys :=
  { s with queues := s.queues.set i (s.queues.getD i [] ++ [c]) }

/-- Replace stream `i`'s queue. -/
def Sys.setQueue (s : Sys) (i : Nat) (q : List Cmd) : Sys :=
  { s with queues := s.queues.set i q }

/-- Model of `struct FutureNCCL : at::ivalue::Future` (the four data
members at ProcessGroupNCCL.hpp:305-309). -/
structure FutureNCCL where
  value_ : IValue
  deviceIndex_ : Nat
  cudaEvents_ : List Nat
  error_ : Option String
deriving DecidableEq

/-- Message of the TORCH_INTERNAL_ASSERT in both FutureNCCL constructors. -/
def singleDeviceMsg : String := "FutureNCCL only supports single-process single-device mode."

/-- First FutureNCCL constructor: takes a value, a device index and the
cudaEvents vector; asserts `cudaEvents_->size() == 1`. -/
def FutureNCCL.mkFromWork (value : IValue) (deviceIndex : Nat) (cudaEvents : List Nat) :
    Except String FutureNCCL :=
  if cudaEvents.length = 1 then
    .ok { value_ := value, deviceIndex_ := deviceIndex, cudaEvents_ := cudaEvents, error_ := none }
  else
    .error singleDeviceMsg

/-- Second FutureNCCL constructor (used by `then`): skips setting the
value; asserts `cudaEvents_->size() == 1`. -/
def FutureNCCL.mkUnset (deviceIndex : Nat) (cudaEvents : List Nat) :
    Except String FutureNCCL :=
  if cudaEvents.length = 1 then
    .ok { value_ := none, deviceIndex_ := deviceIndex, cudaEvents_ := cudaEvents, error_ := none }
  else
    .error singleDeviceMsg

/-- `FutureNCCL::wait`: if `error_` is set, throw it; otherwise make the
current stream of `deviceIndex_` block on `(*cudaEvents_)[0]` (a
device-side wait: the host returns at once with the command enqueued). -/
def FutureNCCL.wait (f : FutureNCCL) (s : Sys) : Except String Sys :=
  match f.error_ with
  | some err => .error err
  | none => .ok (s.enqueue (s.current f.deviceIndex_) (Cmd.waitEvent (f.cudaEvents_.headD 0)))

/-- Message of the TORCH_INTERNAL_ASSERT in `FutureNCCL::markCompleted`. -/
def markCompletedAssertMsg : String :=
  "Attempting to set value of a FutureNCCL which has a value."

/-- `FutureNCCL::markCompleted`: asserts `value_.isNone()`, then stores
the value. -/
def FutureNCCL.markCompleted (f : FutureNCCL) (value : IValue) : Except String FutureNCCL :=
  if f.value_.isNone then .ok { f with value_ := value }
  else .error markCompletedAssertMsg

/-- `FutureNCCL::setError`. -/
def FutureNCCL.setError (f : FutureNCCL) (err : String) : FutureNCCL :=
  { f with error_ := some err }

/-- `FutureNCCL::hasValue`. -/
def FutureNCCL.hasValue (f : FutureNCCL) : Bool :=
  !f.value_.isNone

/-- Message of the TORCH_INTERNAL_ASSERT in `value` / `constValue`. -/
def valueNoneMsg : String := "FutureNCCL value is None."

/-- `FutureNCCL::value`: asserts `hasValue()`, performs `wait()`, then
returns `value_` (together with the device state the wait produced). -/
def FutureNCCL.value (f : FutureNCCL) (s : Sys) : Except String (IValue × Sys) :=
  if f.hasValue then
    match f.wait s with
    | .error e => .error e
    | .ok s2 => .ok (f.value_, s2)
  else .error valueNoneMsg

/-- `FutureNCCL::constValue`: same body as `value`. -/
def FutureNCCL.constValue (f : FutureNCCL) (s : Sys) : Except String (IValue × Sys) :=
  if f.hasValue then
    match f.wait s with
    | .error e => .error e
    | .ok s2 => .ok (f.value_, s2)
  else .error valueNoneMsg

/-- `FutureNCCL::addCallbackWithStream`: blocks `stream` on this future's
event, runs the callback (whose device work, issued under the stream
guard, lands on `stream`), then records `(*thenFutCudaEvents)[0]` on
`stream`.  `cbId` identifies the callback's device work in the trace. -/
def FutureNCCL.addCallbackWithStream (f : FutureNCCL) (cbId : Nat) (stream : Nat)
    (thenFutCudaEvents : List Nat) (s : Sys) : Sys :=
  ((s.enqueue stream (Cmd.waitEvent (f.cudaEvents_.headD 0))).enqueue stream
      (Cmd.run cbId)).enqueue stream (Cmd.record (thenFutCudaEvents.headD 0))

/-- Message of the C10_THROW_ERROR in `FutureNCCL::addCallback`. -/
def addCallbackMsg : String := "FutureNCCL uses addCallbackWithStream instead of addCallback."

/-- `FutureNCCL::addCallback`: unconditionally throws. -/
def FutureNCCL.addCallback (_f : FutureNCCL) (_callback : Unit → Unit) : Except String Unit :=
  .error addCallbackMsg

/-- The lambda bound inside `FutureNCCL::then`: try
`fut->markCompleted(at::IValue(cb()))`, catching any std::exception into
`fut->setError(e.what())`.  The catch also covers a markCompleted assert. -/
def FutureNCCL.thenWrapper (fresh : FutureNCCL) (cb : Unit → Except String IValue) :
    FutureNCCL :=
  match cb () with
  | .error e => fresh.setError e
  | .ok v =>
    match fresh.markCompleted v with
    | .ok f2 => f2
    | .error e => fresh.setError e

/-- `FutureNCCL::then`: gets a new stream from the pool (modelled as a
fresh queue, id `s.queues.length`), makes a cudaEvents vector of size 1
holding a fresh event, creates an unset FutureNCCL over it (the size-1
constructor assert holds by construction), and calls
`addCallbackWithStream` with the wrapper above; returns the new future. -/
def FutureNCCL.«then» (f : FutureNCCL) (cbId : Nat) (cb : Unit → Except String IValue)
    (s : Sys) : FutureNCCL × Sys :=
  let stream := s.queues.length
  let s0 : Sys := { s with queues := s.queues ++ [[]], nextEvent := s.nextEvent + 1 }
  let thenFutCudaEvents : List Nat := [s.nextEvent]
  let fresh : FutureNCCL :=
    { value_ := none, deviceIndex_ := f.deviceIndex_, cudaEvents_ := thenFutCudaEvents,
      error_ := none }
  (FutureNCCL.thenWrapper fresh cb,
   f.addCallbackWithStream cbId stream thenFutCudaEvents s0)

/-- `FutureNCCL::completed`: true if a FutureError was recorded, else
checks `cudaEventQuery((*cudaEvents_)[0])` and returns
`ret != cudaErrorNotReady || ret == cudaSuccess`.  `query` gives each
event's current cudaEventQuery result. -/
def FutureNCCL.completed (f : FutureNCCL) (query : Nat → CudaError) : Bool :=
  if f.error_.isSome then true
  else
    let ret := query (f.cudaEvents_.headD 0)
    decide (ret ≠ CudaError.notReady) || decide (ret = CudaError.success)

/-- One device step: a stream whose head command is enabled executes it.
A `waitEvent` is enabled only when its event has fired; a `record` fires
its event.  The label is what the step makes observable. -/
inductive Label where
  | waited (e : Nat)
  | ranCallback (k : Nat)
  | recorded (e : Nat)
deriving DecidableEq

inductive DevStep : Sys → Label → Sys → Prop where
  | wait (s : Sys) (i e : Nat) (rest : List Cmd)
      (hq : s.queues.getD i [] = Cmd.waitEvent e :: rest)
      (hf : e ∈ s.fired) :
      DevStep s (Label.waited e) (s.setQueue i rest)
  | run (s : Sys) (i k : Nat) (rest : List Cmd)
      (hq : s.queues.getD i [] = Cmd.run k :: rest) :
      DevStep s (Label.ranCallback k) (s.setQueue i rest)
  | record (s : Sys) (i e : Nat) (rest : List Cmd)
      (hq : s.queues.getD i [] = Cmd.record e :: rest) :
      DevStep s (Label.recorded e) { s.setQueue i rest with fired := e :: s.fired }

/-- Multi-step device execution accumulating the trace of labels. -/
inductive Exec : Sys → List Label → Sys → Prop where
  | refl (s : Sys) : Exec s [] s
  | snoc (s1 : Sys) (tr : List Label) (s2 : Sys) (l : Label) (s3 : Sys) :
      Exec s1 tr s2 → DevStep s2 l s3 → Exec s1 (tr ++ [l]) s3

/-- The base future of a chain: as produced by WorkNCCL::getFuture, its
single cudaEvent (id 0) is recorded by the collective's stream (id 0). -/
def baseFut : FutureNCCL :=
  { value_ := some 0, deviceIndex_ := 0, cudaEvents_ := [0], error_ := none }

def baseSys : Sys :=
  { queues := [[Cmd.record 0]], fired := [], nextEvent := 1, current := fun _ => 0 }

/-- A chain of `n` `then()` calls on the base future; the `i`-th call
registers callback id `i`. -/
def chain : Nat → FutureNCCL × Sys
  | 0 => (baseFut, baseSys)
  | n + 1 =>
    let p := chain n
    FutureNCCL.«then» p.1 (n + 1) (fun _ => .ok (some (n + 1))) p.2

/-- The queue that the chain construction leaves on stream `i`. -/
def chainQueue (i : Nat) : List Cmd :=
  if i = 0 then [Cmd.record 0]
  else [Cmd.waitEvent (i - 1), Cmd.run i, Cmd.record i]

/-- The environment variable name at ProcessGroupNCCL.hpp:19. -/
def NCCL_BLOCKING_WAIT : String := "NCCL_BLOCKING_WAIT"

/-- ProcessGroupNCCL state relevant to blocking-wait selection; the field
default mirrors `bool blockingWait_ = false;` (ProcessGroupNCCL.hpp:569). -/
structure ProcessGroupNCCLState where
  blockingWait_ : Bool := false
deriving DecidableEq

/-- Modelled from the spec: the body of
`ProcessGroupNCCL::parseNcclBlockingWait` is not under src/ (the header
only declares it, ProcessGroupNCCL.hpp:483).  Per the spec, the
environment flag selects blocking-wait behavior process-wide; when the
flag is absent the default (`blockingWait_ = false`) is left in place. -/
def parseNcclBlockingWait (env : String → Option String) (pg : ProcessGroupNCCLState) :
    ProcessGroupNCCLState :=
  match env NCCL_BLOCKING_WAIT with
  | some _ => { pg with blockingWait_ := true }
  | none => pg

/-- Modelled from the spec: the ProcessGroupNCCL constructor body is not
under src/; per the spec it parses the environment flag at construction
time, starting from the in-class default `blockingWait_ = false`. -/
def processGroupInit (env : String → Option String) : ProcessGroupNCCLState :=
  parseNcclBlockingWait env {}

/-- What a WorkNCCL::wait amounts to on the host. -/
inductive WaitBehavior where
  | hostBlock
  | deviceSideWait
deriving DecidableEq

/-- Modelled from the spec: `WorkNCCL::wait`'s body is not under src/;
per the spec, in blocking mode it blocks the host thread, otherwise it
performs a device-side stream wait. -/
def workWaitBehavior (pg : ProcessGroupNCCLState) : WaitBehavior :=
  if pg.blockingWait_ then .hostBlock else .deviceSideWait

/-- Placeholder for a usable async work handle. -/
structure WorkHandle where
  id : Nat
deriving DecidableEq

/-- Modelled from the spec: the bodies of `ProcessGroupNCCL::send`,
`recv` and `recvAnysource` are not under src/ (the header declares them
under the "Unsupported Ops" comment, ProcessGroupNCCL.hpp:399-422); per
the spec they report a capability error synchronously and never emulate
the operation through collectives. -/
def capabilityErrorMsg : String := "ProcessGroupNCCL does not support this operation"

def ProcessGroupNCCL.send (_tensors : List Nat) (_dstRank _tag : Int) :
    Except String WorkHandle :=
  .error capabilityErrorMsg

def ProcessGroupNCCL.recv (_tensors : List Nat) (_srcRank _tag : Int) :
    Except String WorkHandle :=
  .error capabilityErrorMsg

def ProcessGroupNCCL.recvAnysource (_tensors : List Nat) (_tag : Int) :
    Except String WorkHandle :=
  .error capabilityErrorMsg

/-! ## List helper lemmas -/

theorem getD_set_ne {α : Type} (l : List α) (i j : Nat) (q d : α) (h : i ≠ j) :
    (l.set i q).getD j d = l.getD j d := by
  induction l generalizing i j with
  | nil => simp [List.set]
  | cons a l ih =>
    cases i with
    | zero =>
      cases j with
      | zero => exact absurd rfl h
      | succ j => simp [List.set]
    | succ i =>
      cases j with
      | zero => simp [List.set]
      | succ j =>
        simp only [List.set, List.getD_cons_succ]
        exact ih i j (fun hc => h (by simp [hc]))

theorem getD_set_self {α : Type} (l : List α) (i : Nat) (q d : α) (h : i < l.length) :
    (l.set i q).getD i d = q := by
  induction l generalizing i with
  | nil => simp at h
  | cons a l ih =>
    cases i with
    | zero => simp [List.set]
    | succ i =>
      simp only [List.set, List.getD_cons_succ]
      exact ih i (by simpa using h)

theorem getD_concat_self {α : Type} (l : List α) (q d : α) :
    (l ++ [q]).getD l.length d = q := by
  induction l with
  | nil => simp [List.getD]
  | cons a l ih =>
    simp only [List.cons_append, List.length_cons, List.getD_cons_succ]
    exact ih

theorem set_concat_self {α : Type} (l : List α) (q q2 : α) :
    (l ++ [q]).set l.length q2 = l ++ [q2] := by
  induction l with
  | nil => simp [List.set]
  | cons a l ih => simp [List.set, ih]

theorem getD_map_range {α : Type} :
    ∀ (n : Nat) (f : Nat → α) (i : Nat) (d : α),
      ((List.range n).map f).getD i d = if i < n then f i else d := by
  intro n
  induction n with
  | zero => intro f i d; simp [List.getD]
  | succ n ih =>
    intro f i d
    rw [List.range_succ_eq_map]
    cases i with
    | zero => simp
    | succ i =>
      simp only [List.map_cons, List.map_map, List.getD_cons_succ]
      rw [ih (f ∘ Nat.succ) i d]
      simp [Nat.succ_lt_succ_iff, Function.comp]

theorem getD_append_left {α : Type} (l1 l2 : List α) (j : Nat) (d : α) (h : j < l1.length) :
    (l1 ++ l2).getD j d = l1.getD j d := by
  induction l1 generalizing j with
  | nil => simp at h
  | cons a l ih =>
    cases j with
    | zero => simp
    | succ j =>
      simp only [List.cons_append, List.getD_cons_succ]
      exact ih j (by simpa using h)

theorem getD_of_le_length {α : Type} (l : List α) (i : Nat) (d : α) (h : l.length ≤ i) :
    l.getD i d = d := by
  induction l generalizing i with
  | nil => simp [List.getD]
  | cons a l ih =>
    cases i with
    | zero => simp at h
    | succ i =>
      simp only [List.getD_cons_succ]
      exact ih i (by simpa using h)

theorem lt_length_of_getD_ne {α : Type} (l : List α) (i : Nat) (d : α)
    (h : l.getD i d ≠ d) : i < l.length := by
  by_contra hle
  exact h (getD_of_le_length l i d (by omega))

theorem mem_exists_getD {α : Type} (l : List α) (a d : α) (h : a ∈ l) :
    ∃ j, j < l.length ∧ l.getD j d = a := by
  induction l with
  | nil => simp at h
  | cons b l ih =>
    rcases List.mem_cons.mp h with h1 | h2
    · exact ⟨0, by simp, by simp [h1]⟩
    · obtain ⟨j, hj, hg⟩ := ih h2
      exact ⟨j + 1, by simpa using hj, by simpa [List.getD_cons_succ] using hg⟩

/-! ## Structure of `then` and of the chain -/

theorem thenWrapper_cudaEvents (fresh : FutureNCCL) (cb : Unit → Except String IValue) :
    (FutureNCCL.thenWrapper fresh cb).cudaEvents_ = fresh.cudaEvents_ := by
  unfold FutureNCCL.thenWrapper
  cases cb () with
  | error e => rfl
  | ok v =>
    unfold FutureNCCL.markCompleted
    by_cases h : fresh.value_.isNone = true <;> simp [h, FutureNCCL.setError]

/-- `then` appends exactly `[block on parent event, callback, record new
event]` on the fresh stream it took from the pool. -/
theorem then_queues (f : FutureNCCL) (cbId : Nat) (cb : Unit → Except String IValue)
    (s : Sys) :
    (FutureNCCL.«then» f cbId cb s).2.queues =
      s.queues ++
        [[Cmd.waitEvent (f.cudaEvents_.headD 0), Cmd.run cbId, Cmd.record s.nextEvent]] := by
  simp only [FutureNCCL.«then», FutureNCCL.addCallbackWithStream, Sys.enqueue]
  rw [getD_concat_self, List.nil_append, set_concat_self, getD_concat_self,
    set_concat_self, getD_concat_self, set_concat_self]
  simp

theorem then_fired (f : FutureNCCL) (cbId : Nat) (cb : Unit → Except String IValue)
    (s : Sys) :
    (FutureNCCL.«then» f cbId cb s).2.fired = s.fired :=
  rfl

theorem then_nextEvent (f : FutureNCCL) (cbId : Nat) (cb : Unit → Except String IValue)
    (s : Sys) :
    (FutureNCCL.«then» f cbId cb s).2.nextEvent = s.nextEvent + 1 :=
  rfl

theorem then_fut_events (f : FutureNCCL) (cbId : Nat) (cb : Unit → Except String IValue)
    (s : Sys) :
    (FutureNCCL.«then» f cbId cb s).1.cudaEvents_ = [s.nextEvent] := by
  show (FutureNCCL.thenWrapper _ cb).cudaEvents_ = _
  rw [thenWrapper_cudaEvents]

/-- Shape of the device state the chain construction produces. -/
theorem chain_spec (N : Nat) :
    (chain N).2.queues = (List.range (N + 1)).map chainQueue ∧
    (chain N).2.fired = [] ∧
    (chain N).2.nextEvent = N + 1 ∧
    (chain N).1.cudaEvents_ = [N] := by
  induction N with
  | zero =>
    refine ⟨?_, rfl, rfl, rfl⟩
    simp [chain, baseSys, chainQueue, List.range_succ]
  | succ n ih =>
    obtain ⟨hq, hf, hn, he⟩ := ih
    have h1 : chain (n + 1) =
        FutureNCCL.«then» (chain n).1 (n + 1) (fun _ => .ok (some (n + 1))) (chain n).2 := by
      simp [chain]
    refine ⟨?_, ?_, ?_, ?_⟩
    · rw [h1, then_queues, hq, he, hn]
      have h2 : List.range (n + 1 + 1) = List.range (n + 1) ++ [n + 1] := List.range_succ (n + 1)
      rw [h2, List.map_append]
      simp [chainQueue]
    · rw [h1, then_fired, hf]
    · rw [h1, then_nextEvent, hn]
    · rw [h1, then_fut_events, hn]

/-! ## The per-stream invariant of a chain execution -/

/-- What stream `i`'s remaining queue can look like during an execution
of the chain, and what its progress tells about fired events: once the
`waitEvent` at the head of stream `i` (1 ≤ i ≤ N) has been consumed,
event `i - 1` has fired. -/
def streamInvQ (N : Nat) (q : List Cmd) (fired : List Nat) (i : Nat) : Prop :=
  if i = 0 then q = [Cmd.record 0] ∨ q = []
  else if i ≤ N then
    q = chainQueue i ∨
    ((q = [Cmd.run i, Cmd.record i] ∨ q = [Cmd.record i] ∨ q = []) ∧ (i - 1) ∈ fired)
  else q = []

theorem streamInvQ_mono (N : Nat) (q : List Cmd) (f1 f2 : List Nat) (i : Nat)
    (hsub : ∀ e, e ∈ f1 → e ∈ f2) (h : streamInvQ N q f1 i) : streamInvQ N q f2 i := by
  unfold streamInvQ at h ⊢
  by_cases h0 : i = 0
  · simp only [h0, if_pos rfl] at h ⊢
    exact h
  · by_cases hN : i ≤ N
    · simp only [h0, if_neg h0, hN, if_pos hN] at h ⊢
      rcases h with h | ⟨hl, hr⟩
      · exact Or.inl h
      · exact Or.inr ⟨hl, hsub _ hr⟩
    · simp only [h0, if_neg h0, hN, if_neg hN] at h ⊢
      exact h

theorem streamInvQ_wait_head (N : Nat) (q : List Cmd) (fired : List Nat) (i e : Nat)
    (rest : List Cmd) (hq : q = Cmd.waitEvent e :: rest) (h : streamInvQ N q fired i) :
    i ≠ 0 ∧ i ≤ N ∧ e = i - 1 ∧ rest = [Cmd.run i, Cmd.record i] := by
  unfold streamInvQ at h
  subst hq
  by_cases h0 : i = 0
  · rw [if_pos h0] at h
    rcases h with h | h <;> simp at h
  · rw [if_neg h0] at h
    by_cases hN : i ≤ N
    · rw [if_pos hN] at h
      rcases h with h | ⟨h, _⟩
      · unfold chainQueue at h
        rw [if_neg h0] at h
        simp only [List.cons.injEq, Cmd.waitEvent.injEq] at h
        exact ⟨h0, hN, h.1, h.2⟩
      · rcases h with h | h | h <;> simp at h
    · rw [if_neg hN] at h
      simp at h

theorem streamInvQ_run_head (N : Nat) (q : List Cmd) (fired : List Nat) (i k : Nat)
    (rest : List Cmd) (hq : q = Cmd.run k :: rest) (h : streamInvQ N q fired i) :
    i ≠ 0 ∧ i ≤ N ∧ k = i ∧ rest = [Cmd.record i] ∧ (i - 1) ∈ fired := by
  unfold streamInvQ at h
  subst hq
  by_cases h0 : i = 0
  · rw [if_pos h0] at h
    rcases h with h | h <;> simp at h
  · rw [if_neg h0] at h
    by_cases hN : i ≤ N
    · rw [if_pos hN] at h
      rcases h with h | ⟨hl, hr⟩
      · unfold chainQueue at h
        rw [if_neg h0] at h
        simp at h
      · rcases hl with hl | hl | hl
        · simp only [List.cons.injEq, Cmd.run.injEq] at hl
          exact ⟨h0, hN, hl.1, hl.2, hr⟩
        · simp at hl
        · simp at hl
    · rw [if_neg hN] at h
      simp at h

theorem streamInvQ_record_head (N : Nat) (q : List Cmd) (fired : List Nat) (i e : Nat)
    (rest : List Cmd) (hq : q = Cmd.record e :: rest) (h : streamInvQ N q fired i) :
    rest = [] ∧ ((i = 0 ∧ e = 0) ∨ (i ≠ 0 ∧ i ≤ N ∧ e = i ∧ (i - 1) ∈ fired)) := by
  unfold streamInvQ at h
  subst hq
  by_cases h0 : i = 0
  · rw [if_pos h0] at h
    rcases h with h | h
    · simp only [List.cons.injEq, Cmd.record.injEq] at h
      exact ⟨h.2, Or.inl ⟨h0, h.1⟩⟩
    · simp at h
  · rw [if_neg h0] at h
    by_cases hN : i ≤ N
    · rw [if_pos hN] at h
      rcases h with h | ⟨hl, hr⟩
      · unfold chainQueue at h
        rw [if_neg h0] at h
        simp at h
      · rcases hl with hl | hl | hl
        · simp at hl
        · simp only [List.cons.injEq, Cmd.record.injEq] at hl
          exact ⟨hl.2, Or.inr ⟨h0, hN, hl.1, hr⟩⟩
        · simp at hl
    · rw [if_neg hN] at h
      simp at h

/-- Execution invariant for a chain of `N` `then()` calls: every fired
event was recorded in the trace, every stream queue satisfies the
per-stream invariant, and every callback in the trace is preceded by the
record of its predecessor's event. -/
theorem chain_exec_inv (N : Nat) (tr : List Label) (s : Sys)
    (hex : Exec (chain N).2 tr s) :
    (∀ e, e ∈ s.fired → Label.recorded e ∈ tr) ∧
    (∀ i, streamInvQ N (s.queues.getD i []) s.fired i) ∧
    (∀ i j, 1 ≤ i → i ≤ N → j < tr.length →
      tr.getD j (Label.waited 0) = Label.ranCallback i →
      ∃ j2, j2 < j ∧ tr.getD j2 (Label.waited 0) = Label.recorded (i - 1)) := by
  induction hex with
  | refl =>
    obtain ⟨hq, hf, _, _⟩ := chain_spec N
    refine ⟨?_, ?_, ?_⟩
    · intro e he
      rw [hf] at he
      simp at he
    · intro i
      rw [hq, hf, getD_map_range]
      unfold streamInvQ
      by_cases h0 : i = 0
      · simp [h0, chainQueue]
      · by_cases hN : i ≤ N
        · have hlt : i < N + 1 := Nat.lt_succ_of_le hN
          simp [h0, hN, hlt]
        · have hge : ¬ i < N + 1 := by omega
          simp [h0, hN, hge]
    · intro i j h1 h2 hj
      simp at hj
  | snoc tr s2 l s3 hex2 hstep ih =>
    obtain ⟨ihF, ihS, ihO⟩ := ih
    cases hstep with
    | wait i0 e rest hq hf =>
      obtain ⟨h0, hN, he, hrest⟩ := streamInvQ_wait_head N _ _ i0 e rest hq (ihS i0)
      have hlt : i0 < s2.queues.length :=
        lt_length_of_getD_ne _ _ _ (by rw [hq]; exact List.cons_ne_nil _ _)
      refine ⟨?_, ?_, ?_⟩
      · intro e2 he2
        exact List.mem_append_left _ (ihF e2 he2)
      · intro i2
        show streamInvQ N ((s2.queues.set i0 rest).getD i2 []) s2.fired i2
        by_cases hi : i0 = i2
        · subst hi
          rw [getD_set_self _ _ _ _ hlt]
          unfold streamInvQ
          rw [if_neg h0, if_pos hN]
          exact Or.inr ⟨Or.inl hrest, he ▸ hf⟩
        · rw [getD_set_ne _ _ _ _ _ hi]
          exact ihS i2
      · intro i j h1 h2 hj hlab
        rw [List.length_append, List.length_singleton] at hj
        rcases Nat.lt_succ_iff_lt_or_eq.mp hj with hlt2 | heq
        · rw [getD_append_left _ _ _ _ hlt2] at hlab
          obtain ⟨j2, hj2, hg⟩ := ihO i j h1 h2 hlt2 hlab
          exact ⟨j2, hj2, by rw [getD_append_left _ _ _ _ (by omega)]; exact hg⟩
        · subst heq
          rw [getD_concat_self] at hlab
          simp at hlab
    | run i0 k rest hq =>
      obtain ⟨h0, hN, hk, hrest, hfir⟩ := streamInvQ_run_head N _ _ i0 k rest hq (ihS i0)
      have hlt : i0 < s2.queues.length :=
        lt_length_of_getD_ne _ _ _ (by rw [hq]; exact List.cons_ne_nil _ _)
      refine ⟨?_, ?_, ?_⟩
      · intro e2 he2
        exact List.mem_append_left _ (ihF e2 he2)
      · intro i2
        show streamInvQ N ((s2.queues.set i0 rest).getD i2 []) s2.fired i2
        by_cases hi : i0 = i2
        · subst hi
          rw [getD_set_self _ _ _ _ hlt]
          unfold streamInvQ
          rw [if_neg h0, if_pos hN]
          exact Or.inr ⟨Or.inr (Or.inl hrest), hfir⟩
        · rw [getD_set_ne _ _ _ _ _ hi]
          exact ihS i2
      · intro i j h1 h2 hj hlab
        rw [List.length_append, List.length_singleton] at hj
        rcases Nat.lt_succ_iff_lt_or_eq.mp hj with hlt2 | heq
        · rw [getD_append_left _ _ _ _ hlt2] at hlab
          obtain ⟨j2, hj2, hg⟩ := ihO i j h1 h2 hlt2 hlab
          exact ⟨j2, hj2, by rw [getD_append_left _ _ _ _ (by omega)]; exact hg⟩
        · subst heq
          rw [getD_concat_self] at hlab
          simp only [Label.ranCallback.injEq] at hlab
          have hik : i = i0 := by omega
          subst hik
          obtain ⟨j2, hj2len, hg⟩ :=
            mem_exists_getD tr (Label.recorded (i - 1)) (Label.waited 0) (ihF _ hfir)
          exact ⟨j2, by omega, by rw [getD_append_left _ _ _ _ hj2len]; exact hg⟩
    | record i0 e rest hq =>
      obtain ⟨hrest, hcases⟩ := streamInvQ_record_head N _ _ i0 e rest hq (ihS i0)
      have hlt : i0 < s2.queues.length :=
        lt_length_of_getD_ne _ _ _ (by rw [hq]; exact List.cons_ne_nil _ _)
      have hsub : ∀ e2, e2 ∈ s2.fired → e2 ∈ e :: s2.fired := fun e2 h => List.mem_cons_of_mem _ h
      refine ⟨?_, ?_, ?_⟩
      · intro e2 he2
        rcases List.mem_cons.mp he2 with h1 | h1
        · subst h1
          exact List.mem_append_right _ (List.mem_singleton.mpr rfl)
        · exact List.mem_append_left _ (ihF e2 h1)
      · intro i2
        show streamInvQ N ((s2.queues.set i0 rest).getD i2 []) (e :: s2.fired) i2
        by_cases hi : i0 = i2
        · subst hi
          rw [getD_set_self _ _ _ _ hlt, hrest]
          unfold streamInvQ
          rcases hcases with ⟨h0, _⟩ | ⟨h0, hN, _, hfir⟩
          · rw [if_pos h0]
            exact Or.inr rfl
          · rw [if_neg h0, if_pos hN]
            exact Or.inr ⟨Or.inr (Or.inr rfl), hsub _ hfir⟩
        · rw [getD_set_ne _ _ _ _ _ hi]
          exact streamInvQ_mono N _ _ _ i2 hsub (ihS i2)
      · intro i j h1 h2 hj hlab
        rw [List.length_append, List.length_singleton] at hj
        rcases Nat.lt_succ_iff_lt_or_eq.mp hj with hlt2 | heq
        · rw [getD_append_left _ _ _ _ hlt2] at hlab
          obtain ⟨j2, hj2, hg⟩ := ihO i j h1 h2 hlt2 hlab
          exact ⟨j2, hj2, by rw [getD_append_left _ _ _ _ (by omega)]; exact hg⟩
        · subst heq
          rw [getD_concat_self] at hlab
          simp at hlab

/-! ## Concrete fixtures used by witnesses -/

def futWithValue : FutureNCCL :=
  { value_ := some 7, deviceIndex_ := 0, cudaEvents_ := [0], error_ := none }

def futNoValue : FutureNCCL :=
  { value_ := none, deviceIndex_ := 0, cudaEvents_ := [0], error_ := none }

def futErr : FutureNCCL :=
  { value_ := some 7, deviceIndex_ := 0, cudaEvents_ := [0], error_ := some "boom" }

/-! ## Claim theorems (functional ones) -/

/-- C3: `value()` / `constValue()` first check that a result was set
(error if not), perform `wait()`, and only then return the held
result. -/
theorem value_calls_wait_first (f : FutureNCCL) (s : Sys) :
    (f.hasValue = false →
      f.value s = .error valueNoneMsg ∧ f.constValue s = .error valueNoneMsg) ∧
    (f.hasValue = true →
      f.value s = (f.wait s).map (fun s2 => (f.value_, s2)) ∧
      f.constValue s = (f.wait s).map (fun s2 => (f.value_, s2))) := by
  constructor
  · intro h
    constructor <;> simp [FutureNCCL.value, FutureNCCL.constValue, h]
  · intro h
    constructor <;>
      · simp only [FutureNCCL.value, FutureNCCL.constValue, h, if_true]
        cases f.wait s <;> simp [Except.map]

theorem value_calls_wait_first_witness :
    futWithValue.hasValue = true ∧
    futWithValue.value baseSys =
      (futWithValue.wait baseSys).map (fun s2 => (futWithValue.value_, s2)) :=
  ⟨rfl, ((value_calls_wait_first futWithValue baseSys).2 rfl).1⟩

/-- C4: `completed()` is true iff an error was set or the future's event
query reports anything other than not-ready (pending). -/
theorem completed_iff_error_or_not_pending (f : FutureNCCL) (query : Nat → CudaError) :
    f.completed query = true ↔
      (f.error_.isSome = true ∨ query (f.cudaEvents_.headD 0) ≠ CudaError.notReady) := by
  unfold FutureNCCL.completed
  by_cases h : f.error_.isSome = true
  · simp [h]
  · simp only [h, if_false, Bool.or_eq_true, decide_eq_true_eq]
    cases hq : query (f.cudaEvents_.headD 0) <;> simp [h]

/-- C5: `wait()` re-raises a captured error on the host if present;
otherwise it only enqueues a device-side wait for the future's event on
the current stream of its device and returns at once. -/
theorem wait_is_device_side (f : FutureNCCL) (s : Sys) :
    (∀ err, f.error_ = some err → f.wait s = .error err) ∧
    (f.error_ = none →
      f.wait s =
        .ok (s.enqueue (s.current f.deviceIndex_) (Cmd.waitEvent (f.cudaEvents_.headD 0)))) := by
  constructor
  · intro err h; simp [FutureNCCL.wait, h]
  · intro h; simp [FutureNCCL.wait, h]

theorem wait_is_device_side_witness :
    futErr.wait baseSys = .error "boom" ∧
    futWithValue.wait baseSys = .ok (baseSys.enqueue 0 (Cmd.waitEvent 0)) :=
  ⟨(wait_is_device_side futErr baseSys).1 "boom" rfl,
   (wait_is_device_side futWithValue baseSys).2 rfl⟩

/-- C6 counterexample: `markCompleted` can succeed twice in a row.
Storing the None IValue leaves `value_.isNone()` true, so the assert
passes again on a second call: here the first call (argument `none`)
returns the future unchanged, and a second call on that very result also
succeeds. -/
theorem markCompleted_succeeds_twice :
    futNoValue.markCompleted none = .ok futNoValue ∧
    futNoValue.markCompleted (some 0) = .ok { futNoValue with value_ := some 0 } :=
  ⟨rfl, rfl⟩

/-- C6 amended: `markCompleted` stores the result when `value_` is still
None and fails the assert when the future already holds a non-None
value; hence it succeeds at most once for non-None results (storing a
None result leaves the slot unset, so a later call can still succeed). -/
theorem markCompleted_at_most_once (f f2 : FutureNCCL) (v v2 : IValue) :
    (f.value_.isNone = true → f.markCompleted v = .ok { f with value_ := v }) ∧
    (f.value_.isNone = false → f.markCompleted v = .error markCompletedAssertMsg) ∧
    (f.value_.isNone = true → v.isNone = false → f.markCompleted v = .ok f2 →
      f2.markCompleted v2 = .error markCompletedAssertMsg) := by
  refine ⟨?_, ?_, ?_⟩
  · intro h; simp [FutureNCCL.markCompleted, h]
  · intro h; simp [FutureNCCL.markCompleted, h]
  · intro h1 h2 h3
    simp only [FutureNCCL.markCompleted, h1, if_true, Except.ok.injEq] at h3
    simp [FutureNCCL.markCompleted, ← h3, h2]

theorem markCompleted_at_most_once_witness :
    futNoValue.markCompleted (some 5) = .ok { futNoValue with value_ := some 5 } ∧
    ({ futNoValue with value_ := some 5 } : FutureNCCL).markCompleted (some 6) =
      .error markCompletedAssertMsg :=
  ⟨(markCompleted_at_most_once futNoValue { futNoValue with value_ := some 5 }
      (some 5) (some 6)).1 rfl,
   (markCompleted_at_most_once futNoValue { futNoValue with value_ := some 5 }
      (some 5) (some 6)).2.2 rfl rfl
     ((markCompleted_at_most_once futNoValue { futNoValue with value_ := some 5 }
        (some 5) (some 6)).1 rfl)⟩

/-- C7: `addCallback` (callback registration without an explicit stream)
is always rejected with an error; the stream-taking path is
`addCallbackWithStream` (used by `then`). -/
theorem addCallback_always_rejected (f : FutureNCCL) (cb : Unit → Unit) :
    f.addCallback cb = .error addCallbackMsg :=
  rfl

/-- C8: send / recv / recvAnysource report a capability error
synchronously and never return a usable work handle. -/
theorem send_recv_capability_error (tensors : List Nat) (dstRank srcRank tag : Int) :
    ProcessGroupNCCL.send tensors dstRank tag = .error capabilityErrorMsg ∧
    ProcessGroupNCCL.recv tensors srcRank tag = .error capabilityErrorMsg ∧
    ProcessGroupNCCL.recvAnysource tensors tag = .error capabilityErrorMsg :=
  ⟨rfl, rfl, rfl⟩

/-- C9: the blocking-wait mode is selected at construction by the
NCCL_BLOCKING_WAIT environment flag; absent, `blockingWait_` stays at
its in-class default `false` and wait() takes the device-side path. -/
theorem blocking_wait_env_default (env : String → Option String) :
    (env NCCL_BLOCKING_WAIT = none →
      (processGroupInit env).blockingWait_ = false ∧
      workWaitBehavior (processGroupInit env) = WaitBehavior.deviceSideWait) ∧
    (∀ v, env NCCL_BLOCKING_WAIT = some v →
      (processGroupInit env).blockingWait_ = true) := by
  constructor
  · intro h
    have hb : (processGroupInit env).blockingWait_ = false := by
      simp [processGroupInit, parseNcclBlockingWait, h]
    exact ⟨hb, by simp [workWaitBehavior, hb]⟩
  · intro v h
    simp [processGroupInit, parseNcclBlockingWait, h]

theorem blocking_wait_env_default_witness :
    (processGroupInit (fun _ => none)).blockingWait_ = false ∧
    (processGroupInit (fun _ => some "1")).blockingWait_ = true :=
  ⟨((blocking_wait_env_default (fun _ => none)).1 rfl).1,
   (blocking_wait_env_default (fun _ => some "1")).2 "1" rfl⟩

/-- C10: both FutureNCCL constructors assert that the supplied
cudaEvents vector has size 1; a multi-device marker list is an assertion
failure. -/
theorem futureNCCL_constructors_single_event (v : IValue) (d : Nat) (evs : List Nat) :
    (evs.length = 1 →
      FutureNCCL.mkFromWork v d evs =
        .ok { value_ := v, deviceIndex_ := d, cudaEvents_ := evs, error_ := none } ∧
      FutureNCCL.mkUnset d evs =
        .ok { value_ := none, deviceIndex_ := d, cudaEvents_ := evs, error_ := none }) ∧
    (evs.length ≠ 1 →
      FutureNCCL.mkFromWork v d evs = .error singleDeviceMsg ∧
      FutureNCCL.mkUnset d evs = .error singleDeviceMsg) := by
  constructor <;> intro h <;>
    constructor <;> simp [FutureNCCL.mkFromWork, FutureNCCL.mkUnset, h]

theorem futureNCCL_constructors_single_event_witness :
    FutureNCCL.mkFromWork (some 0) 0 [0, 1] = .error singleDeviceMsg ∧
    FutureNCCL.mkUnset 0 [0] = .ok futNoValue :=
  ⟨((futureNCCL_constructors_single_event (some 0) 0 [0, 1]).2 (by decide)).1,
   ((futureNCCL_constructors_single_event (some 0) 0 [0]).1 rfl).2⟩

/-- C2 counterexample: with a callback raising "boom", `value()` on the
future returned by `then` raises the has-value assertion message, not
the captured "boom" — so `value()` does not re-raise the callback's
exception. -/
theorem then_value_does_not_reraise :
    (FutureNCCL.«then» baseFut 1 (fun _ => .error "boom") baseSys).1.value baseSys =
      .error valueNoneMsg ∧
    valueNoneMsg ≠ "boom" :=
  ⟨rfl, by decide⟩

/-- C2 amended: an exception raised by the callback is captured into the
returned future's error slot and does not escape `then` (whose model is
total: the wrapper catches both the callback's and markCompleted's
exceptions); a later `wait()` re-raises it, while `value()` fails its
has-value assertion since no value was ever set. -/
theorem then_captures_exception (f : FutureNCCL) (cbId : Nat)
    (cb : Unit → Except String IValue) (msg : String) (s : Sys)
    (hcb : cb () = .error msg) :
    (FutureNCCL.«then» f cbId cb s).1.error_ = some msg ∧
    (∀ s2, (FutureNCCL.«then» f cbId cb s).1.wait s2 = .error msg) ∧
    (∀ s2, (FutureNCCL.«then» f cbId cb s).1.value s2 = .error valueNoneMsg) := by
  have hfut : (FutureNCCL.«then» f cbId cb s).1 =
      { value_ := none, deviceIndex_ := f.deviceIndex_, cudaEvents_ := [s.nextEvent],
        error_ := some msg } := by
    simp [FutureNCCL.«then», FutureNCCL.thenWrapper, hcb, FutureNCCL.setError]
  refine ⟨by simp [hfut], ?_, ?_⟩
  · intro s2; simp [hfut, FutureNCCL.wait]
  · intro s2; simp [hfut, FutureNCCL.value, FutureNCCL.hasValue]

theorem then_captures_exception_witness :
    (FutureNCCL.«then» baseFut 1 (fun _ => .error "boom") baseSys).1.error_ = some "boom" :=
  (then_captures_exception baseFut 1 (fun _ => .error "boom") "boom" baseSys rfl).1

/-- C1: in a chain of `N` `then()` calls, each `then` takes a fresh
stream, blocks it on the predecessor's marker, runs the callback there
and records the new future's marker (definitions `«then»`,
`addCallbackWithStream`, `chain`); consequently, in every device
execution trace, future `i`'s callback never runs before future
`i − 1`'s marker is satisfied, for all `i ∈ [2, N]`. -/
theorem then_chain_callback_ordering (N i : Nat) (h2 : 2 ≤ i) (hN : i ≤ N)
    (tr : List Label) (s : Sys) (hex : Exec (chain N).2 tr s)
    (j : Nat) (hj : j < tr.length)
    (hlab : tr.getD j (Label.waited 0) = Label.ranCallback i) :
    ∃ j2, j2 < j ∧ tr.getD j2 (Label.waited 0) = Label.recorded (i - 1) :=
  (chain_exec_inv N tr s hex).2.2 i j (by omega) hN hj hlab

/-- A complete concrete execution of a chain of two `then()` calls. -/
theorem exec_chain2 :
    ∃ s, Exec (chain 2).2
      [Label.recorded 0, Label.waited 0, Label.ranCallback 1, Label.recorded 1,
       Label.waited 1, Label.ranCallback 2] s := by
  exact ⟨_, Exec.snoc _
    [Label.recorded 0, Label.waited 0, Label.ranCallback 1, Label.recorded 1, Label.waited 1]
    _ (Label.ranCallback 2) _
    (Exec.snoc _ [Label.recorded 0, Label.waited 0, Label.ranCallback 1, Label.recorded 1]
      _ (Label.waited 1) _
      (Exec.snoc _ [Label.recorded 0, Label.waited 0, Label.ranCallback 1]
        _ (Label.recorded 1) _
        (Exec.snoc _ [Label.recorded 0, Label.waited 0] _ (Label.ranCallback 1) _
          (Exec.snoc _ [Label.recorded 0] _ (Label.waited 0) _
            (Exec.snoc _ [] _ (Label.recorded 0) _ (Exec.refl _)
              (DevStep.record _ 0 0 [] (by decide)))
            (DevStep.wait _ 1 0 [Cmd.run 1, Cmd.record 1] (by decide) (by decide)))
          (DevStep.run _ 1 1 [Cmd.record 1] (by decide)))
        (DevStep.record _ 1 1 [] (by decide)))
      (DevStep.wait _ 2 1 [Cmd.run 2, Cmd.record 2] (by decide) (by decide)))
    (DevStep.run _ 2 2 [Cmd.record 2] (by decide))⟩

theorem then_chain_callback_ordering_witness :
    ∃ j2, j2 < 5 ∧
      [Label.recorded 0, Label.waited 0, Label.ranCallback 1, Label.recorded 1,
       Label.waited 1, Label.ranCallback 2].getD j2 (Label.waited 0) = Label.recorded 1 := by
  obtain ⟨s, hs⟩ := exec_chain2
  exact then_chain_callback_ordering 2 2 (by omega) (by omega) _ s hs 5 (by decide) (by decide)

end C10d
